import Mathlib

/-!
Shallow embedding of the prediction-market pallet from
`src/pallets/custom-pallet/src/lib.rs` (the `try.rs` module is a
near-duplicate with identical semantics).

Modelling conventions:
- `AccountId`, block numbers and balances are `Nat` (the balance type is a
  generic unbounded `Balance` in the source; block numbers never overflow in
  the scenarios considered).
- The `u32` storage counters (`yes_votes`, `no_votes`, `MarketCount`) use the
  source's `saturating_add`, modelled by `sat32add` which saturates at
  `2^32 - 1`.
- `StorageMap` / `StorageDoubleMap` are association lists with
  overwrite-on-insert semantics (`alSet`, `votesSet`).
- Each extrinsic is a function `PalletState → Except Err PalletState`; an
  error result models FRAME's transactional rollback (no state change), made
  explicit by the `dispatch` wrapper.
- The external clock (`frame_system::block_number`) is the `now` parameter.
-/

namespace CustomPallet

/-- Account identifiers (`T::AccountId`). -/
abbrev AccountId := Nat

/-- The saturation bound of a `u32` counter. -/
def U32_MAX : Nat := 2 ^ 32 - 1

/-- The source's `u32::saturating_add`, on `Nat`. -/
def sat32add (a b : Nat) : Nat := min (a + b) U32_MAX

/-- Runtime configuration constants (`Config` trait: `VoteCost`,
`CreatorRewardPercentage`, `MarketDuration`, the pallet escrow account derived
from `PalletId`, and the ledger's minimum existence balance). -/
structure Config where
  voteCost : Nat
  creatorRewardPercentage : Nat
  marketDuration : Nat
  palletAccount : AccountId
  existentialDeposit : Nat
  deriving Repr, DecidableEq

/-- The `Market<T>` storage record. `metadata` is the byte payload; the
`BoundedVec<u8, ConstU32<256>>` length bound is enforced at creation. -/
structure Market where
  creator : AccountId
  end_block : Nat
  yes_votes : Nat
  no_votes : Nat
  total_staked : Nat
  is_active : Bool
  metadata : List Nat
  deriving Repr, DecidableEq

/-- The pallet's `Error<T>` enum, plus `TransferFailed` for the ledger error
propagated verbatim by the `?` on `Currency::transfer` in `vote`. -/
inductive Err where
  | MarketDoesNotExist
  | MarketNotActive
  | MarketStillActive
  | AlreadyVoted
  | InvalidVoteCost
  | MetadataTooLong
  | TransferFailed
  deriving Repr, DecidableEq

/-- The pallet's `Event<T>` enum. -/
inductive Event where
  | MarketCreated (market_id : Nat) (creator : AccountId) (end_block : Nat)
      (metadata : List Nat)
  | VoteCast (market_id : Nat) (voter : AccountId) (vote : Bool)
  | RewardsDistributed (market_id : Nat) (creator : AccountId)
      (creator_reward : Nat)
  deriving Repr, DecidableEq

/-- The `ExistenceRequirement` policy of `Currency::transfer`. -/
inductive ExistenceRequirement where
  | KeepAlive
  | AllowDeath
  deriving Repr, DecidableEq

/-- Association-list lookup (`StorageMap::get`). -/
def alGet {α : Type} (l : List (Nat × α)) (k : Nat) : Option α :=
  match l with
  | [] => none
  | (k2, v) :: rest => if k2 = k then some v else alGet rest k

/-- Association-list overwrite-or-append (`StorageMap::insert`). -/
def alSet {α : Type} (l : List (Nat × α)) (k : Nat) (v : α) : List (Nat × α) :=
  match l with
  | [] => [(k, v)]
  | (k2, w) :: rest => if k2 = k then (k, v) :: rest else (k2, w) :: alSet rest k v

/-- Balance lookup with the zero default of a fungible ledger. -/
def getBal (bal : List (AccountId × Nat)) (a : AccountId) : Nat :=
  (alGet bal a).getD 0

/-- The double map `Votes<T>`: entries `(market_id, voter, choice)`. -/
abbrev VoteStore := List (Nat × AccountId × Bool)

/-- `Votes::contains_key(market_id, voter)`. -/
def votesContains (vs : VoteStore) (market_id : Nat) (voter : AccountId) : Bool :=
  match vs with
  | [] => false
  | (k, w, _) :: rest => (k = market_id ∧ w = voter) || votesContains rest market_id voter

/-- `Votes::insert(market_id, voter, vote)`: overwrite-or-append. -/
def votesSet (vs : VoteStore) (market_id : Nat) (voter : AccountId) (b : Bool) :
    VoteStore :=
  match vs with
  | [] => [(market_id, voter, b)]
  | (k, w, v) :: rest =>
    if k = market_id ∧ w = voter then (market_id, voter, b) :: rest
    else (k, w, v) :: votesSet rest market_id voter b

/-- `Votes::iter_prefix(market_id)`: the `(voter, vote)` pairs stored under
`market_id`. -/
def votesOf (vs : VoteStore) (market_id : Nat) : List (AccountId × Bool) :=
  vs.filterMap fun e => if e.1 = market_id then some e.2 else none

/-- Modelled from the spec: the external Ledger collaborator's transfer
admissibility (spec §6) — the code of `Currency::transfer` is not part of this
repository. `KeepAlive` fails if the transfer would drop the sender below the
minimum retained balance; `AllowDeath` permits zeroing the sender. -/
def transferAllowed (ed srcBal amount : Nat) (req : ExistenceRequirement) : Prop :=
  match req with
  | .KeepAlive => amount ≤ srcBal ∧ ed ≤ srcBal - amount
  | .AllowDeath => amount ≤ srcBal

instance (ed srcBal amount : Nat) (req : ExistenceRequirement) :
    Decidable (transferAllowed ed srcBal amount req) := by
  cases req <;> simp [transferAllowed] <;> infer_instance

/-- Modelled from the spec: the external Ledger collaborator's
`transfer(from, to, amount, existence_policy)` (spec §6); `none` is the
transfer failure. The destination is credited after the source is debited, so
a self-transfer is the identity. -/
def transfer (ed : Nat) (bal : List (AccountId × Nat)) (src dst : AccountId)
    (amount : Nat) (req : ExistenceRequirement) :
    Option (List (AccountId × Nat)) :=
  if transferAllowed ed (getBal bal src) amount req then
    some (alSet (alSet bal src (getBal bal src - amount)) dst
      (getBal (alSet bal src (getBal bal src - amount)) dst + amount))
  else none

/-- A transfer whose failure is absorbed (`let _ = T::Currency::transfer(...)`
in `release_rewards`): on failure the ledger is unchanged. -/
def tryTransfer (ed : Nat) (bal : List (AccountId × Nat)) (src dst : AccountId)
    (amount : Nat) (req : ExistenceRequirement) : List (AccountId × Nat) :=
  (transfer ed bal src dst amount req).getD bal

/-- The whole pallet + ledger state: the `Markets` map, the `MarketCount`
counter, the `Votes` double map, the ledger balances and the emitted events. -/
structure PalletState where
  markets : List (Nat × Market)
  marketCount : Nat
  votes : VoteStore
  balances : List (AccountId × Nat)
  events : List Event
  deriving Repr, DecidableEq

/-- `create_market(origin, metadata)` (lib.rs lines 112–144): reads the
counter, computes `end_block = now + MarketDuration`, bounds-checks the
metadata, stores a zeroed active market, advances the counter with
`saturating_add`, and emits `MarketCreated`. -/
def create_market (cfg : Config) (now : Nat) (creator : AccountId)
    (metadata : List Nat) (s : PalletState) : Except Err PalletState :=
  let market_id := s.marketCount
  let end_block := now + cfg.marketDuration
  if metadata.length ≤ 256 then
    let market : Market :=
      { creator := creator, end_block := end_block, yes_votes := 0,
        no_votes := 0, total_staked := 0, is_active := true,
        metadata := metadata }
    .ok { s with
            markets := alSet s.markets market_id market,
            marketCount := sat32add s.marketCount 1,
            events := s.events ++ [Event.MarketCreated market_id creator end_block metadata] }
  else .error .MetadataTooLong

/-- The market record update performed by an accepted vote (lib.rs lines
172–177): `saturating_add` 1 to the chosen counter and `saturating_add`
`VoteCost` to `total_staked` (the balance type is unbounded here). -/
def votedMarket (cfg : Config) (market : Market) (vote_yes : Bool) : Market :=
  if vote_yes then
    { market with yes_votes := sat32add market.yes_votes 1,
                  total_staked := market.total_staked + cfg.voteCost }
  else
    { market with no_votes := sat32add market.no_votes 1,
                  total_staked := market.total_staked + cfg.voteCost }

/-- The post-state of an accepted vote (lib.rs lines 171–186), given the
ledger `bal2` returned by the stake transfer. -/
def voteState (cfg : Config) (market_id : Nat) (voter : AccountId)
    (vote_yes : Bool) (market : Market) (bal2 : List (AccountId × Nat))
    (s : PalletState) : PalletState :=
  { s with
      markets := alSet s.markets market_id (votedMarket cfg market vote_yes),
      votes := votesSet s.votes market_id voter vote_yes,
      balances := bal2,
      events := s.events ++ [Event.VoteCast market_id voter vote_yes] }

/-- `vote(origin, market_id, vote_yes)` (lib.rs lines 149–189): checks market
existence, activity, deadline and duplicate vote in that order, transfers
`VoteCost` to the escrow account with `KeepAlive`, increments the chosen
counter with `saturating_add`, adds `VoteCost` to `total_staked`, records the
vote and emits `VoteCast`. -/
def vote (cfg : Config) (now : Nat) (voter : AccountId) (market_id : Nat)
    (vote_yes : Bool) (s : PalletState) : Except Err PalletState :=
  match alGet s.markets market_id with
  | none => .error .MarketDoesNotExist
  | some market =>
    if market.is_active then
      if now ≤ market.end_block then
        if votesContains s.votes market_id voter then .error .AlreadyVoted
        else
          match transfer cfg.existentialDeposit s.balances voter
              cfg.palletAccount cfg.voteCost .KeepAlive with
          | none => .error .TransferFailed
          | some bal2 => .ok (voteState cfg market_id voter vote_yes market bal2 s)
      else .error .MarketNotActive
    else .error .MarketNotActive

/-- The winner-payout loop of `release_rewards` (lib.rs lines 225–234): for
each stored vote of the market, transfer `reward_per_winner` from escrow to
the voter when the vote matches the winning side, absorbing failures. -/
def payWinners (ed : Nat) (pallet : AccountId) (reward : Nat) (yes_wins : Bool) :
    List (AccountId × Bool) → List (AccountId × Nat) → List (AccountId × Nat)
  | [], bal => bal
  | (voter, v) :: rest, bal =>
    let bal2 :=
      if v = yes_wins then tryTransfer ed bal pallet voter reward .AllowDeath
      else bal
    payWinners ed pallet reward yes_wins rest bal2

/-- The creator's cut (lib.rs lines 206–209): `saturating_mul` by the
percentage, then `checked_div(100).unwrap_or(0)` — i.e. floor division. -/
def creatorRewardOf (cfg : Config) (total : Nat) : Nat :=
  total * cfg.creatorRewardPercentage / 100

/-- The winning side (lib.rs line 212): `yes_votes > no_votes`, so a tie goes
to the "no" side. -/
def yesWins (market : Market) : Bool := decide (market.no_votes < market.yes_votes)

/-- The winning side's vote count (lib.rs lines 213–217). -/
def winnerCount (market : Market) : Nat :=
  if yesWins market then market.yes_votes else market.no_votes

/-- The post-state of an eligible settlement (lib.rs lines 203–251):
deactivate the market, pay each winning voter
`floor(remaining_pool / winner_count)` (skipped when `winner_count = 0`),
then pay the creator, all best-effort, and emit `RewardsDistributed`. -/
def settleState (cfg : Config) (market_id : Nat) (market : Market)
    (s : PalletState) : PalletState :=
  let creator_reward := creatorRewardOf cfg market.total_staked
  let remaining_reward_pool := market.total_staked - creator_reward
  let bal1 :=
    if 0 < winnerCount market then
      payWinners cfg.existentialDeposit cfg.palletAccount
        (remaining_reward_pool / winnerCount market) (yesWins market)
        (votesOf s.votes market_id) s.balances
    else s.balances
  let bal2 := tryTransfer cfg.existentialDeposit bal1 cfg.palletAccount
    market.creator creator_reward .AllowDeath
  { s with
      markets := alSet s.markets market_id { market with is_active := false },
      balances := bal2,
      events := s.events ++ [Event.RewardsDistributed market_id market.creator creator_reward] }

/-- `release_rewards(origin, market_id)` (lib.rs lines 193–254): checks
existence, activity and that the deadline has passed, then settles the
market as described at `settleState`. -/
def release_rewards (cfg : Config) (now : Nat) (market_id : Nat)
    (s : PalletState) : Except Err PalletState :=
  match alGet s.markets market_id with
  | none => .error .MarketDoesNotExist
  | some market =>
    if market.is_active then
      if market.end_block < now then .ok (settleState cfg market_id market s)
      else .error .MarketStillActive
    else .error .MarketNotActive

/-- FRAME dispatch of one extrinsic: an `Err` result rolls the storage back
(`#[transactional]` / fail-before-write), so the pre-state is kept. -/
def dispatch (op : PalletState → Except Err PalletState) (s : PalletState) :
    PalletState × Option Err :=
  match op s with
  | .ok s2 => (s2, none)
  | .error e => (s, some e)

/-- The stake-accounting invariant of a single market record. -/
def marketInvariant (cfg : Config) (m : Market) : Prop :=
  m.total_staked = cfg.voteCost * (m.yes_votes + m.no_votes)

instance (cfg : Config) (m : Market) : Decidable (marketInvariant cfg m) := by
  unfold marketInvariant; infer_instance

/-- The stake-accounting invariant over every stored market. -/
def stateInvariant (cfg : Config) (s : PalletState) : Prop :=
  ∀ e ∈ s.markets, marketInvariant cfg e.2

instance (cfg : Config) (s : PalletState) : Decidable (stateInvariant cfg s) := by
  unfold stateInvariant; infer_instance

/-- The market stored under `market_id` after an extrinsic result, if any. -/
def marketAfter (r : Except Err PalletState) (market_id : Nat) : Option Market :=
  match r with
  | .ok s => alGet s.markets market_id
  | .error _ => none

/-- The `MarketCount` counter after an extrinsic result, if it succeeded. -/
def countAfter (r : Except Err PalletState) : Option Nat :=
  match r with
  | .ok s => some s.marketCount
  | .error _ => none

/-- The whole post-state of an extrinsic result, if it succeeded. -/
def stateAfter (r : Except Err PalletState) : Option PalletState :=
  match r with
  | .ok s => some s
  | .error _ => none

/-- The balance of account `a` after an extrinsic result, if it succeeded. -/
def balAfter (r : Except Err PalletState) (a : AccountId) : Option Nat :=
  match r with
  | .ok s => some (getBal s.balances a)
  | .error _ => none

/-! Concrete states used by the scenario parts of the claims, their
counterexamples and their witnesses. -/

/-- An empty deployment state. -/
def sEmpty : PalletState := ⟨[], 0, [], [], []⟩

/-- The spec's worked scenario configuration: `vote_cost = 10`,
`creator_reward_percentage = 5`, escrow account `0`, minimum balance `1`. -/
def cfgW : Config := ⟨10, 5, 100, 0, 1⟩

/-- The scenario market after its four votes: creator `1`, deadline block
`10`, 3 yes votes, 1 no vote, stake `40`, metadata `"M1"`. -/
def mW : Market := ⟨1, 10, 3, 1, 40, true, [77, 49]⟩

/-- The scenario state: accounts `2`, `3`, `4` voted yes, `5` voted no, and
the escrow holds the staked `40`. -/
def sW : PalletState :=
  ⟨[(0, mW)], 1, [(0, 2, true), (0, 3, true), (0, 4, true), (0, 5, false)],
   [(0, 40)], []⟩

/-- The state the scenario settlement must produce: market deactivated, each
yes voter paid `12`, the creator paid `2`, and `2` units of dust left in
escrow. -/
def resW : PalletState :=
  ⟨[(0, ⟨1, 10, 3, 1, 40, false, [77, 49]⟩)], 1,
   [(0, 2, true), (0, 3, true), (0, 4, true), (0, 5, false)],
   [(0, 2), (2, 12), (3, 12), (4, 12), (1, 2)],
   [Event.RewardsDistributed 0 1 2]⟩

/-- A fresh active market with no votes (creator `1`, deadline `10`). -/
def mV : Market := ⟨1, 10, 0, 0, 0, true, []⟩

/-- A state holding only the fresh market `mV`; account `6` holds `30`. -/
def sV : PalletState := ⟨[(0, mV)], 1, [], [(6, 30)], []⟩

/-- Configuration with `vote_cost = 1` and no minimum balance, used at the
`u32` saturation counterexample. -/
def cfgC1 : Config := ⟨1, 5, 100, 0, 0⟩

/-- A market whose yes-counter sits at the `u32` maximum while the stake
invariant still holds (`total_staked = 1 * (U32_MAX + 0)`). -/
def mC1 : Market := ⟨1, 10, U32_MAX, 0, U32_MAX, true, []⟩

/-- The same market after one more accepted yes vote: the saturated counter
is unchanged but the stake grew. -/
def mC1after : Market := ⟨1, 10, U32_MAX, 0, U32_MAX + 1, true, []⟩

/-- State holding `mC1`; account `7` can afford one vote. -/
def sC1 : PalletState := ⟨[(0, mC1)], 1, [], [(7, 5)], []⟩

/-- A state whose market counter sits at the `u32` maximum. -/
def sC6 : PalletState := ⟨[], U32_MAX, [], [], []⟩

/-- The state after one creation at the saturated counter: identifier
`U32_MAX` assigned, counter still `U32_MAX`. -/
def s1C6 : PalletState :=
  ⟨[(U32_MAX, ⟨1, 100, 0, 0, 0, true, []⟩)], U32_MAX, [], [],
   [Event.MarketCreated U32_MAX 1 100 []]⟩

/-- The state after a second creation: identifier `U32_MAX` is assigned
again, overwriting the first market. -/
def s2C6 : PalletState :=
  ⟨[(U32_MAX, ⟨2, 100, 0, 0, 0, true, []⟩)], U32_MAX, [], [],
   [Event.MarketCreated U32_MAX 1 100 [], Event.MarketCreated U32_MAX 2 100 []]⟩

/-- An eligible market with two yes votes and an underfunded escrow. -/
def mC8 : Market := ⟨1, 10, 2, 0, 20, true, []⟩

/-- State for the best-effort payout scenario: two yes voters are each owed
`9`, but the escrow holds only `13`, so the second payout must fail. -/
def sC8 : PalletState :=
  ⟨[(0, mC8)], 1, [(0, 2, true), (0, 3, true)], [(0, 13)], []⟩

/-- The state the best-effort settlement must produce: voter `2` paid `9`,
voter `3` silently unpaid, creator paid `1`, market deactivated. -/
def resC8 : PalletState :=
  ⟨[(0, ⟨1, 10, 2, 0, 20, false, []⟩)], 1, [(0, 2, true), (0, 3, true)],
   [(0, 3), (2, 9), (1, 1)], [Event.RewardsDistributed 0 1 1]⟩

/-- An eligible market that received no votes at all. -/
def mZ : Market := ⟨1, 10, 0, 0, 0, true, []⟩

/-- State holding only the unvoted market `mZ` with an empty escrow. -/
def sZ : PalletState := ⟨[(0, mZ)], 1, [], [(0, 0)], []⟩

/-- The state produced by creating one market on the empty deployment. -/
def sFirst : PalletState :=
  ⟨[(0, ⟨1, 100, 0, 0, 0, true, []⟩)], 1, [], [], [Event.MarketCreated 0 1 100 []]⟩

/-- The state produced by account `6` voting yes on the fresh market of `sV`. -/
def sVafter : PalletState :=
  ⟨[(0, ⟨1, 10, 1, 0, 10, true, []⟩)], 1, [(0, 6, true)], [(6, 20), (0, 10)],
   [Event.VoteCast 0 6 true]⟩

/-! Lemmas about the association-list stores. -/

theorem alGet_alSet_self {α : Type} (l : List (Nat × α)) (k : Nat) (v : α) :
    alGet (alSet l k v) k = some v := by
  induction l with
  | nil => simp [alSet, alGet]
  | cons hd tl ih =>
    obtain ⟨k2, w⟩ := hd
    by_cases h : k2 = k
    · simp [alSet, h, alGet]
    · simp [alSet, h, alGet, ih]

theorem alGet_alSet_ne {α : Type} (l : List (Nat × α)) (k k2 : Nat) (v : α)
    (h : k2 ≠ k) : alGet (alSet l k v) k2 = alGet l k2 := by
  induction l with
  | nil => simp [alSet, alGet, Ne.symm h]
  | cons hd tl ih =>
    obtain ⟨k3, w⟩ := hd
    by_cases h3 : k3 = k
    · subst h3
      simp [alSet, alGet, Ne.symm h]
    · simp [alSet, h3, alGet, ih]

theorem mem_alSet {α : Type} {l : List (Nat × α)} {k : Nat} {v : α} {e : Nat × α}
    (he : e ∈ alSet l k v) : e = (k, v) ∨ e ∈ l := by
  induction l with
  | nil => simpa [alSet] using he
  | cons hd tl ih =>
    obtain ⟨k2, w⟩ := hd
    by_cases h : k2 = k
    · simp [alSet, h] at he
      rcases he with h1 | h1
      · exact Or.inl h1
      · exact Or.inr (List.mem_cons_of_mem _ h1)
    · simp [alSet, h] at he
      rcases he with h1 | h1
      · exact Or.inr (by simp [h1])
      · rcases ih h1 with h2 | h2
        · exact Or.inl h2
        · exact Or.inr (List.mem_cons_of_mem _ h2)

theorem alGet_mem {α : Type} {l : List (Nat × α)} {k : Nat} {v : α}
    (h : alGet l k = some v) : (k, v) ∈ l := by
  induction l with
  | nil => simp [alGet] at h
  | cons hd tl ih =>
    obtain ⟨k2, w⟩ := hd
    by_cases hk : k2 = k
    · subst hk
      simp [alGet] at h
      simp [h]
    · simp [alGet, hk] at h
      exact List.mem_cons_of_mem _ (ih h)

theorem getBal_alSet_self (bal : List (AccountId × Nat)) (a : AccountId) (v : Nat) :
    getBal (alSet bal a v) a = v := by
  simp [getBal, alGet_alSet_self]

theorem getBal_alSet_ne (bal : List (AccountId × Nat)) (a b : AccountId) (v : Nat)
    (h : b ≠ a) : getBal (alSet bal a v) b = getBal bal b := by
  simp [getBal, alGet_alSet_ne _ _ _ _ h]

/-! Lemmas about the vote store. -/

theorem votesSet_not_contains {vs : VoteStore} {k : Nat} {a : AccountId} (b : Bool)
    (h : votesContains vs k a = false) : votesSet vs k a b = vs ++ [(k, a, b)] := by
  induction vs with
  | nil => simp [votesSet]
  | cons hd tl ih =>
    obtain ⟨k2, a2, v2⟩ := hd
    simp only [votesContains, Bool.or_eq_false_iff, decide_eq_false_iff_not] at h
    simp [votesSet, h.1, ih h.2]

theorem votesContains_votesSet_self (vs : VoteStore) (k : Nat) (a : AccountId)
    (b : Bool) : votesContains (votesSet vs k a b) k a = true := by
  induction vs with
  | nil => simp [votesSet, votesContains]
  | cons hd tl ih =>
    obtain ⟨k2, a2, v2⟩ := hd
    by_cases h : k2 = k ∧ a2 = a
    · simp [votesSet, h, votesContains]
    · simp [votesSet, h, votesContains, ih]

theorem stateAfter_some {r : Except Err PalletState} {x : PalletState}
    (h : stateAfter r = some x) : r = .ok x := by
  cases r with
  | ok s =>
    unfold stateAfter at h
    rw [(Option.some.injEq _ _).mp h]
  | error e => simp [stateAfter] at h

/-! Lemmas about the ledger model. -/

theorem transfer_some_elim {ed : Nat} {bal : List (AccountId × Nat)}
    {src dst : AccountId} {amount : Nat} {req : ExistenceRequirement}
    {bal2 : List (AccountId × Nat)}
    (h : transfer ed bal src dst amount req = some bal2) :
    transferAllowed ed (getBal bal src) amount req ∧
    bal2 = alSet (alSet bal src (getBal bal src - amount)) dst
      (getBal (alSet bal src (getBal bal src - amount)) dst + amount) := by
  unfold transfer at h
  by_cases ha : transferAllowed ed (getBal bal src) amount req
  · rw [if_pos ha] at h
    exact ⟨ha, ((Option.some.injEq _ _).mp h).symm⟩
  · rw [if_neg ha] at h; cases h

theorem transfer_some_getBal {ed : Nat} {bal : List (AccountId × Nat)}
    {src dst : AccountId} {amount : Nat} {req : ExistenceRequirement}
    {bal2 : List (AccountId × Nat)} (hne : dst ≠ src)
    (h : transfer ed bal src dst amount req = some bal2) :
    getBal bal2 dst = getBal bal dst + amount ∧
    getBal bal2 src = getBal bal src - amount ∧
    ∀ a, a ≠ src → a ≠ dst → getBal bal2 a = getBal bal a := by
  obtain ⟨-, hb⟩ := transfer_some_elim h
  subst hb
  refine ⟨?_, ?_, ?_⟩
  · rw [getBal_alSet_self, getBal_alSet_ne _ _ _ _ hne]
  · rw [getBal_alSet_ne _ _ _ _ (Ne.symm hne), getBal_alSet_self]
  · intro a ha hd
    rw [getBal_alSet_ne _ _ _ _ hd, getBal_alSet_ne _ _ _ _ ha]

theorem transfer_none_of_not_allowed {ed : Nat} {bal : List (AccountId × Nat)}
    {src dst : AccountId} {amount : Nat} {req : ExistenceRequirement}
    (ha : ¬ transferAllowed ed (getBal bal src) amount req) :
    transfer ed bal src dst amount req = none := by
  unfold transfer
  rw [if_neg ha]

theorem tryTransfer_getBal_allowed {ed : Nat} {bal : List (AccountId × Nat)}
    {src dst : AccountId} {amount : Nat} {req : ExistenceRequirement}
    (hne : dst ≠ src)
    (ha : transferAllowed ed (getBal bal src) amount req) :
    getBal (tryTransfer ed bal src dst amount req) dst = getBal bal dst + amount ∧
    getBal (tryTransfer ed bal src dst amount req) src = getBal bal src - amount ∧
    ∀ a, a ≠ src → a ≠ dst →
      getBal (tryTransfer ed bal src dst amount req) a = getBal bal a := by
  have h : transfer ed bal src dst amount req =
      some (alSet (alSet bal src (getBal bal src - amount)) dst
        (getBal (alSet bal src (getBal bal src - amount)) dst + amount)) := by
    unfold transfer
    rw [if_pos ha]
  have h2 := transfer_some_getBal hne h
  unfold tryTransfer
  rw [h]
  exact h2

theorem tryTransfer_getBal_not_allowed {ed : Nat} {bal : List (AccountId × Nat)}
    {src dst : AccountId} {amount : Nat} {req : ExistenceRequirement}
    (ha : ¬ transferAllowed ed (getBal bal src) amount req) :
    tryTransfer ed bal src dst amount req = bal := by
  unfold tryTransfer
  rw [transfer_none_of_not_allowed ha]
  rfl

theorem getBal_alSet_same (bal : List (AccountId × Nat)) (a c : AccountId) :
    getBal (alSet bal a (getBal bal a)) c = getBal bal c := by
  by_cases h : c = a
  · subst h; rw [getBal_alSet_self]
  · rw [getBal_alSet_ne _ _ _ _ h]

theorem getBal_tryTransfer_zero (ed : Nat) (bal : List (AccountId × Nat))
    (src dst a : AccountId) :
    getBal (tryTransfer ed bal src dst 0 .AllowDeath) a = getBal bal a := by
  have ha : transferAllowed ed (getBal bal src) 0 .AllowDeath := Nat.zero_le _
  unfold tryTransfer transfer
  rw [if_pos ha]
  simp only [Option.getD_some, Nat.sub_zero, Nat.add_zero]
  by_cases h : a = dst
  · subst h; rw [getBal_alSet_self, getBal_alSet_same]
  · rw [getBal_alSet_ne _ _ _ _ h, getBal_alSet_same]

theorem sat32add_one_of_lt {a : Nat} (h : a < U32_MAX) : sat32add a 1 = a + 1 := by
  unfold sat32add
  unfold U32_MAX at h ⊢
  omega

theorem votedMarket_true_of_lt {cfg : Config} {m : Market}
    (h : m.yes_votes < U32_MAX) :
    votedMarket cfg m true =
      { m with
          yes_votes := m.yes_votes + 1,
          total_staked := m.total_staked + cfg.voteCost } := by
  simp [votedMarket, sat32add_one_of_lt h]

theorem votedMarket_false_of_lt {cfg : Config} {m : Market}
    (h : m.no_votes < U32_MAX) :
    votedMarket cfg m false =
      { m with
          no_votes := m.no_votes + 1,
          total_staked := m.total_staked + cfg.voteCost } := by
  simp [votedMarket, sat32add_one_of_lt h]

/-! Lemmas about the market update of an accepted vote. -/

theorem votedMarket_fields (cfg : Config) (m : Market) (b : Bool) :
    (votedMarket cfg m b).is_active = m.is_active ∧
    (votedMarket cfg m b).end_block = m.end_block ∧
    (votedMarket cfg m b).creator = m.creator ∧
    (votedMarket cfg m b).metadata = m.metadata ∧
    (votedMarket cfg m b).total_staked = m.total_staked + cfg.voteCost := by
  cases b <;> simp [votedMarket]

/-! Success and failure characterizations of the extrinsics. -/

theorem vote_ok_elim {cfg : Config} {now : Nat} {voter : AccountId}
    {market_id : Nat} {b : Bool} {s s2 : PalletState}
    (h : vote cfg now voter market_id b s = .ok s2) :
    ∃ m bal2, alGet s.markets market_id = some m ∧ m.is_active = true ∧
      now ≤ m.end_block ∧ votesContains s.votes market_id voter = false ∧
      transfer cfg.existentialDeposit s.balances voter cfg.palletAccount
        cfg.voteCost .KeepAlive = some bal2 ∧
      s2 = voteState cfg market_id voter b m bal2 s := by
  unfold vote at h
  split at h
  next heq => simp at h
  next m heq =>
    by_cases hact : m.is_active
    · rw [if_pos hact] at h
      by_cases hdl : now ≤ m.end_block
      · rw [if_pos hdl] at h
        by_cases hv : votesContains s.votes market_id voter
        · rw [if_pos hv] at h; simp at h
        · rw [if_neg hv] at h
          split at h
          next ht => simp at h
          next bal2 ht =>
            exact ⟨m, bal2, heq, hact, hdl, by simpa using hv, ht,
              ((Except.ok.injEq _ _).mp h).symm⟩
      · rw [if_neg hdl] at h; simp at h
    · rw [if_neg hact] at h; simp at h

theorem release_ok_elim {cfg : Config} {now : Nat} {market_id : Nat}
    {s s2 : PalletState}
    (h : release_rewards cfg now market_id s = .ok s2) :
    ∃ m, alGet s.markets market_id = some m ∧ m.is_active = true ∧
      m.end_block < now ∧ s2 = settleState cfg market_id m s := by
  unfold release_rewards at h
  split at h
  next heq => simp at h
  next m heq =>
    by_cases hact : m.is_active
    · rw [if_pos hact] at h
      by_cases hdl : m.end_block < now
      · rw [if_pos hdl] at h
        exact ⟨m, heq, hact, hdl, ((Except.ok.injEq _ _).mp h).symm⟩
      · rw [if_neg hdl] at h; simp at h
    · rw [if_neg hact] at h; simp at h

theorem create_ok_elim {cfg : Config} {now : Nat} {creator : AccountId}
    {md : List Nat} {s s2 : PalletState}
    (h : create_market cfg now creator md s = .ok s2) :
    md.length ≤ 256 ∧
      s2 = { s with
              markets := alSet s.markets s.marketCount
                { creator := creator, end_block := now + cfg.marketDuration,
                  yes_votes := 0, no_votes := 0, total_staked := 0,
                  is_active := true, metadata := md },
              marketCount := sat32add s.marketCount 1,
              events := s.events ++ [Event.MarketCreated s.marketCount creator
                (now + cfg.marketDuration) md] } := by
  unfold create_market at h
  by_cases hlen : md.length ≤ 256
  · rw [if_pos hlen] at h
    exact ⟨hlen, ((Except.ok.injEq _ _).mp h).symm⟩
  · rw [if_neg hlen] at h; simp at h

theorem release_err_of_inactive {cfg : Config} {now : Nat} {market_id : Nat}
    {s : PalletState} {m : Market} (hm : alGet s.markets market_id = some m)
    (hact : m.is_active = false) :
    release_rewards cfg now market_id s = .error .MarketNotActive := by
  unfold release_rewards
  rw [hm]
  simp [hact]

theorem release_err_of_early {cfg : Config} {now : Nat} {market_id : Nat}
    {s : PalletState} {m : Market} (hm : alGet s.markets market_id = some m)
    (hact : m.is_active = true) (hdl : now ≤ m.end_block) :
    release_rewards cfg now market_id s = .error .MarketStillActive := by
  unfold release_rewards
  rw [hm]
  simp [hact, Nat.not_lt.mpr hdl]

/-- C5: the vote operation checks its preconditions in a fixed order with the
first failure winning — unknown `market_id` fails with `MarketDoesNotExist`;
an inactive market, or an active market whose `end_block` lies strictly
before the clock, fails with `MarketNotActive`; a duplicate vote by the same
identity fails with `AlreadyVoted` regardless of the boolean choice, and in
particular any second vote cast before the deadline by a voter whose first
vote succeeded fails with `AlreadyVoted` whatever either choice was. -/
theorem C5_vote_precondition_order (cfg : Config) (now now2 : Nat)
    (voter : AccountId) (market_id : Nat) (b b2 : Bool) (s : PalletState)
    (m : Market) :
    (alGet s.markets market_id = none →
       vote cfg now voter market_id b s = .error .MarketDoesNotExist) ∧
    (alGet s.markets market_id = some m → m.is_active = false →
       vote cfg now voter market_id b s = .error .MarketNotActive) ∧
    (alGet s.markets market_id = some m → m.is_active = true →
       m.end_block < now →
       vote cfg now voter market_id b s = .error .MarketNotActive) ∧
    (alGet s.markets market_id = some m → m.is_active = true →
       now ≤ m.end_block → votesContains s.votes market_id voter = true →
       vote cfg now voter market_id b s = .error .AlreadyVoted) ∧
    (∀ s2, alGet s.markets market_id = some m →
       vote cfg now voter market_id b s = .ok s2 → now2 ≤ m.end_block →
       vote cfg now2 voter market_id b2 s2 = .error .AlreadyVoted) := by
  refine ⟨?_, ?_, ?_, ?_, ?_⟩
  · intro hm
    unfold vote
    rw [hm]
  · intro hm hact
    unfold vote
    rw [hm]
    simp [hact]
  · intro hm hact hdl
    unfold vote
    rw [hm]
    simp [hact, Nat.not_le.mpr hdl]
  · intro hm hact hdl hv
    unfold vote
    rw [hm]
    simp [hact, hdl, hv]
  · intro s2 hm hok hdl2
    obtain ⟨m2, bal2, hm2, hact2, -, -, -, hs2⟩ := vote_ok_elim hok
    rw [hm] at hm2
    obtain rfl : m = m2 := by simpa using hm2
    subst hs2
    unfold vote
    rw [show alGet (voteState cfg market_id voter b m bal2 s).markets market_id
        = some (votedMarket cfg m b) from alGet_alSet_self _ _ _]
    have hf := votedMarket_fields cfg m b
    simp [voteState, hf.1, hact2, hf.2.1, hdl2, votesContains_votesSet_self]

/-- C3: `is_active` moves from `true` to `false` only through a settlement
invoked strictly after `end_block` — settlement of an inactive market fails
with `MarketNotActive`, settlement at or before the deadline fails with
`MarketStillActive`, a successful settlement requires `end_block < now`,
deactivates exactly that market, and makes any second settlement of it fail
with `MarketNotActive`; neither vote nor create_market ever moves a stored
market from active to inactive. -/
theorem C3_settlement_deactivates_once (cfg : Config) (now now2 : Nat)
    (market_id : Nat) (s : PalletState) (m : Market) :
    (alGet s.markets market_id = some m → m.is_active = false →
       release_rewards cfg now market_id s = .error .MarketNotActive) ∧
    (alGet s.markets market_id = some m → m.is_active = true →
       now ≤ m.end_block →
       release_rewards cfg now market_id s = .error .MarketStillActive) ∧
    (∀ s2, alGet s.markets market_id = some m →
       release_rewards cfg now market_id s = .ok s2 →
       m.is_active = true ∧ m.end_block < now ∧
       alGet s2.markets market_id = some { m with is_active := false } ∧
       release_rewards cfg now2 market_id s2 = .error .MarketNotActive) ∧
    (∀ voter id2 b s2 m2, vote cfg now voter id2 b s = .ok s2 →
       alGet s.markets market_id = some m →
       alGet s2.markets market_id = some m2 → m2.is_active = m.is_active) ∧
    (∀ creator md s2 m2, create_market cfg now creator md s = .ok s2 →
       alGet s.markets market_id = some m → m.is_active = true →
       alGet s2.markets market_id = some m2 → m2.is_active = true) := by
  refine ⟨?_, ?_, ?_, ?_, ?_⟩
  · exact fun hm hact => release_err_of_inactive hm hact
  · exact fun hm hact hdl => release_err_of_early hm hact hdl
  · intro s2 hm hok
    obtain ⟨m2, hm2, hact2, hdl2, hs2⟩ := release_ok_elim hok
    rw [hm] at hm2
    obtain rfl : m = m2 := by simpa using hm2
    subst hs2
    have hget : alGet (settleState cfg market_id m s).markets market_id =
        some { m with is_active := false } := alGet_alSet_self _ _ _
    exact ⟨hact2, hdl2, hget, release_err_of_inactive hget rfl⟩
  · intro voter id2 b s2 m2 hok hm hm2
    obtain ⟨m3, bal2, hm3, -, -, -, -, hs2⟩ := vote_ok_elim hok
    subst hs2
    by_cases hid : market_id = id2
    · subst hid
      rw [show alGet (voteState cfg market_id voter b m3 bal2 s).markets market_id
          = some (votedMarket cfg m3 b) from alGet_alSet_self _ _ _] at hm2
      rw [hm] at hm3
      obtain rfl : m = m3 := by simpa using hm3
      obtain rfl : m2 = votedMarket cfg m b := by simpa using hm2.symm
      exact (votedMarket_fields cfg m b).1
    · rw [show alGet (voteState cfg id2 voter b m3 bal2 s).markets market_id
          = alGet s.markets market_id from alGet_alSet_ne _ _ _ _ hid] at hm2
      rw [hm] at hm2
      obtain rfl : m2 = m := by simpa using hm2.symm
      rfl
  · intro creator md s2 m2 hok hm hact hm2
    obtain ⟨-, hs2⟩ := create_ok_elim hok
    subst hs2
    by_cases hid : market_id = s.marketCount
    · subst hid
      rw [alGet_alSet_self] at hm2
      obtain rfl : m2 = _ := by simpa using hm2.symm
      rfl
    · rw [alGet_alSet_ne _ _ _ _ hid, hm] at hm2
      obtain rfl : m2 = m := by simpa using hm2.symm
      exact hact

/-- Witness for C5: on the scenario state, account `2` voting a second time —
with the opposite choice — fails with `AlreadyVoted`. -/
theorem C5_witness :
    alGet sW.markets 0 = some mW ∧ mW.is_active = true ∧ (5 : Nat) ≤ mW.end_block ∧
    votesContains sW.votes 0 2 = true ∧
    vote cfgW 5 2 0 false sW = .error .AlreadyVoted :=
  ⟨by decide, by decide, by decide, by decide,
   (C5_vote_precondition_order cfgW 5 0 2 0 false false sW mW).2.2.2.1
     (by decide) (by decide) (by decide) (by decide)⟩

/-- Witness for C3: settling the scenario market at block `11` succeeds and
deactivates it, and settling it again at block `12` fails with
`MarketNotActive`. -/
theorem C3_witness :
    alGet sW.markets 0 = some mW ∧
    (mW.is_active = true ∧ mW.end_block < 11 ∧
     alGet resW.markets 0 = some { mW with is_active := false } ∧
     release_rewards cfgW 12 0 resW = .error .MarketNotActive) :=
  ⟨by decide,
   (C3_settlement_deactivates_once cfgW 11 12 0 sW mW).2.2.1 resW (by decide)
     (stateAfter_some (by decide))⟩

/-- C9: market creation fails with `MetadataTooLong` exactly when the
metadata payload exceeds 256 bytes; on failure the dispatch leaves the state
(market store and counter included) unchanged. -/
theorem C9_metadata_bound (cfg : Config) (now : Nat) (creator : AccountId)
    (md : List Nat) (s : PalletState) :
    (md.length ≤ 256 → (create_market cfg now creator md s).isOk = true) ∧
    (256 < md.length →
       create_market cfg now creator md s = .error .MetadataTooLong ∧
       (dispatch (create_market cfg now creator md) s).1 = s) := by
  constructor
  · intro h
    unfold create_market
    rw [if_pos h]
    rfl
  · intro h
    have herr : create_market cfg now creator md s = .error .MetadataTooLong := by
      unfold create_market
      rw [if_neg (by exact fun h2 => absurd h (Nat.not_lt.mpr h2))]
    refine ⟨herr, ?_⟩
    unfold dispatch
    rw [herr]

/-- Witness for C9: a 256-byte payload is accepted and a 257-byte payload is
rejected with `MetadataTooLong`. -/
theorem C9_witness :
    (List.replicate 256 (0 : Nat)).length ≤ 256 ∧
    (create_market cfgW 0 1 (List.replicate 256 0) sEmpty).isOk = true ∧
    256 < (List.replicate 257 (0 : Nat)).length ∧
    create_market cfgW 0 1 (List.replicate 257 0) sEmpty = .error .MetadataTooLong := by
  have h1 : (List.replicate 256 (0 : Nat)).length = 256 := List.length_replicate _ _
  have h2 : (List.replicate 257 (0 : Nat)).length = 257 := List.length_replicate _ _
  exact ⟨by omega,
    (C9_metadata_bound cfgW 0 1 (List.replicate 256 0) sEmpty).1 (by omega),
    by omega,
    ((C9_metadata_bound cfgW 0 1 (List.replicate 257 0) sEmpty).2 (by omega)).1⟩

/-- C6 counterexample: at a market counter of `2^32 - 1` (reachable after
that many creations, since the counter advances with `u32::saturating_add`),
a successful creation leaves the counter unchanged instead of one greater,
and the next creation assigns the same identifier `2^32 - 1` again,
overwriting the previous market — so identifiers are reused. -/
theorem C6_counterexample :
    sC6.marketCount = U32_MAX ∧
    countAfter (create_market cfgW 0 1 [] sC6) = some U32_MAX ∧
    countAfter (create_market cfgW 0 1 [] sC6) ≠ some (sC6.marketCount + 1) ∧
    stateAfter (create_market cfgW 0 1 [] sC6) = some s1C6 ∧
    stateAfter (create_market cfgW 0 2 [] s1C6) = some s2C6 :=
  ⟨by decide, by decide, by decide, by decide, by decide⟩

/-- C6 (amended): for every successful creation starting from a counter
strictly below `2^32 - 1`, the assigned identifier is the prior counter value
(the new market is stored there and `MarketCreated` carries it) and the
counter afterwards is exactly one greater; identifiers are therefore dense,
strictly increasing from 0 and not reused while the counter stays below the
`u32` saturation bound. -/
theorem C6_market_id_assignment (cfg : Config) (now : Nat) (creator : AccountId)
    (md : List Nat) (s : PalletState) (h : s.marketCount < U32_MAX) :
    ∀ s2, create_market cfg now creator md s = .ok s2 →
      alGet s2.markets s.marketCount =
        some ⟨creator, now + cfg.marketDuration, 0, 0, 0, true, md⟩ ∧
      s2.events = s.events ++
        [Event.MarketCreated s.marketCount creator (now + cfg.marketDuration) md] ∧
      s2.marketCount = s.marketCount + 1 := by
  intro s2 hok
  obtain ⟨-, hs2⟩ := create_ok_elim hok
  subst hs2
  refine ⟨alGet_alSet_self _ _ _, rfl, ?_⟩
  show sat32add s.marketCount 1 = s.marketCount + 1
  unfold sat32add U32_MAX
  unfold U32_MAX at h
  omega

/-- C1 counterexample: on a market whose yes-counter sits at the `u32`
maximum while still satisfying the stake invariant, an accepted vote leaves
`yes_votes` unchanged (`u32::saturating_add`) yet still adds one `vote_cost`
to `total_staked`, breaking `total_staked = vote_cost * (yes_votes +
no_votes)`. -/
theorem C1_counterexample :
    marketInvariant cfgC1 mC1 ∧
    marketAfter (vote cfgC1 5 7 0 true sC1) 0 = some mC1after ∧
    mC1after.yes_votes = mC1.yes_votes ∧
    mC1after.total_staked = mC1.total_staked + cfgC1.voteCost ∧
    ¬ marketInvariant cfgC1 mC1after :=
  ⟨by decide, by decide, by decide, by decide, by decide⟩

/-- C1 (amended): `create_market` initialises both vote counters and
`total_staked` to zero; every accepted vote on a market whose combined vote
count is below `2^32 - 1` increments exactly one counter by 1 and
`total_staked` by exactly one `vote_cost`; and under that bound the
stake-accounting invariant `total_staked = vote_cost * (yes_votes +
no_votes)` is preserved by create_market, vote and release_rewards. -/
theorem C1_stake_invariant (cfg : Config) (now : Nat) (s : PalletState)
    (hinv : stateInvariant cfg s) :
    (∀ creator md s2, create_market cfg now creator md s = .ok s2 →
       alGet s2.markets s.marketCount =
         some ⟨creator, now + cfg.marketDuration, 0, 0, 0, true, md⟩ ∧
       stateInvariant cfg s2) ∧
    (∀ voter market_id b s2 m, alGet s.markets market_id = some m →
       m.yes_votes + m.no_votes < U32_MAX →
       vote cfg now voter market_id b s = .ok s2 →
       alGet s2.markets market_id = some (votedMarket cfg m b) ∧
       (b = true → (votedMarket cfg m b).yes_votes = m.yes_votes + 1 ∧
          (votedMarket cfg m b).no_votes = m.no_votes) ∧
       (b = false → (votedMarket cfg m b).no_votes = m.no_votes + 1 ∧
          (votedMarket cfg m b).yes_votes = m.yes_votes) ∧
       (votedMarket cfg m b).total_staked = m.total_staked + cfg.voteCost ∧
       stateInvariant cfg s2) ∧
    (∀ market_id s2, release_rewards cfg now market_id s = .ok s2 →
       stateInvariant cfg s2) := by
  refine ⟨?_, ?_, ?_⟩
  · intro creator md s2 hok
    obtain ⟨-, hs2⟩ := create_ok_elim hok
    subst hs2
    refine ⟨alGet_alSet_self _ _ _, ?_⟩
    intro e he
    rcases mem_alSet he with he2 | he2
    · subst he2
      simp [marketInvariant]
    · exact hinv e he2
  · intro voter market_id b s2 m hm hbound hok
    obtain ⟨m2, bal2, hm2, -, -, -, -, hs2⟩ := vote_ok_elim hok
    rw [hm] at hm2
    obtain rfl : m = m2 := by simpa using hm2
    subst hs2
    have hminv : marketInvariant cfg m := hinv _ (alGet_mem hm)
    have hyes : m.yes_votes < U32_MAX := by omega
    have hno : m.no_votes < U32_MAX := by omega
    have hminv2 : m.total_staked = cfg.voteCost * (m.yes_votes + m.no_votes) :=
      hminv
    have hvm : marketInvariant cfg (votedMarket cfg m b) := by
      cases b with
      | true =>
        rw [marketInvariant, votedMarket_true_of_lt hyes]
        show m.total_staked + cfg.voteCost =
          cfg.voteCost * (m.yes_votes + 1 + m.no_votes)
        rw [hminv2]
        ring
      | false =>
        rw [marketInvariant, votedMarket_false_of_lt hno]
        show m.total_staked + cfg.voteCost =
          cfg.voteCost * (m.yes_votes + (m.no_votes + 1))
        rw [hminv2]
        ring
    refine ⟨alGet_alSet_self _ _ _, ?_, ?_, (votedMarket_fields cfg m b).2.2.2.2, ?_⟩
    · intro hb
      subst hb
      simp [votedMarket, sat32add_one_of_lt hyes]
    · intro hb
      subst hb
      simp [votedMarket, sat32add_one_of_lt hno]
    · intro e he
      rcases mem_alSet he with he2 | he2
      · subst he2
        exact hvm
      · exact hinv e he2
  · intro market_id s2 hok
    obtain ⟨m, hm, -, -, hs2⟩ := release_ok_elim hok
    subst hs2
    intro e he
    rcases mem_alSet he with he2 | he2
    · subst he2
      have hminv : marketInvariant cfg m := hinv _ (alGet_mem hm)
      unfold marketInvariant at hminv ⊢
      exact hminv
    · exact hinv e he2

/-- Witness for C1: on the fresh market of `sV`, account `6`'s accepted yes
vote moves the yes-counter from 0 to 1 and the stake from 0 to one
`vote_cost`, and the invariant holds in the post-state. -/
theorem C1_witness :
    stateInvariant cfgW sV ∧
    (alGet sVafter.markets 0 = some (votedMarket cfgW mV true) ∧
     (true = true → (votedMarket cfgW mV true).yes_votes = mV.yes_votes + 1 ∧
        (votedMarket cfgW mV true).no_votes = mV.no_votes) ∧
     (true = false → (votedMarket cfgW mV true).no_votes = mV.no_votes + 1 ∧
        (votedMarket cfgW mV true).yes_votes = mV.yes_votes) ∧
     (votedMarket cfgW mV true).total_staked = mV.total_staked + cfgW.voteCost ∧
     stateInvariant cfgW sVafter) :=
  ⟨by decide,
   (C1_stake_invariant cfgW 5 sV (by decide)).2.1 6 0 true sVafter mV
     (by decide) (by decide) (stateAfter_some (by decide))⟩

/-- C4: the vote operation is atomic — a failed dispatch leaves the whole
state unchanged; in particular when the `KeepAlive` stake transfer is not
admissible the operation fails with the propagated transfer error; and a
successful vote always carries its stake: the vote record exists and
`vote_cost` has moved from the voter to the escrow account. -/
theorem C4_vote_atomicity (cfg : Config) (now : Nat) (voter : AccountId)
    (market_id : Nat) (b : Bool) (s : PalletState) :
    (∀ e, (dispatch (vote cfg now voter market_id b) s).2 = some e →
       (dispatch (vote cfg now voter market_id b) s).1 = s) ∧
    (∀ m, alGet s.markets market_id = some m → m.is_active = true →
       now ≤ m.end_block → votesContains s.votes market_id voter = false →
       ¬ transferAllowed cfg.existentialDeposit (getBal s.balances voter)
           cfg.voteCost .KeepAlive →
       vote cfg now voter market_id b s = .error .TransferFailed) ∧
    (∀ s2, vote cfg now voter market_id b s = .ok s2 →
       votesContains s2.votes market_id voter = true ∧
       (voter ≠ cfg.palletAccount →
         getBal s2.balances voter = getBal s.balances voter - cfg.voteCost ∧
         getBal s2.balances cfg.palletAccount =
           getBal s.balances cfg.palletAccount + cfg.voteCost)) := by
  refine ⟨?_, ?_, ?_⟩
  · intro e he
    unfold dispatch at he ⊢
    cases hr : vote cfg now voter market_id b s with
    | ok s2 => rw [hr] at he; simp at he
    | error e2 => rfl
  · intro m hm hact hdl hv hta
    unfold vote
    rw [hm]
    simp [hact, hdl, hv, transfer_none_of_not_allowed hta]
  · intro s2 hok
    obtain ⟨m, bal2, -, -, -, -, ht, hs2⟩ := vote_ok_elim hok
    subst hs2
    refine ⟨votesContains_votesSet_self _ _ _ _, ?_⟩
    intro hvp
    have hg := transfer_some_getBal (Ne.symm hvp) ht
    exact ⟨hg.2.1, hg.1⟩

/-- Witness for C4: account `8` holds nothing, so its vote fails with the
propagated transfer error and the dispatch leaves the state unchanged. -/
theorem C4_witness :
    alGet sV.markets 0 = some mV ∧ mV.is_active = true ∧ (5 : Nat) ≤ mV.end_block ∧
    votesContains sV.votes 0 8 = false ∧
    ¬ transferAllowed cfgW.existentialDeposit (getBal sV.balances 8)
        cfgW.voteCost .KeepAlive ∧
    vote cfgW 5 8 0 true sV = .error .TransferFailed :=
  ⟨by decide, by decide, by decide, by decide, by decide,
   (C4_vote_atomicity cfgW 5 8 0 true sV).2.1 mV (by decide) (by decide)
     (by decide) (by decide) (by decide)⟩

theorem payWinners_getBal (ed : Nat) (pallet : AccountId) (reward : Nat)
    (yw : Bool) (entries : List (AccountId × Bool)) (bal : List (AccountId × Nat))
    (hnd : (entries.map Prod.fst).Nodup)
    (hp : pallet ∉ entries.map Prod.fst)
    (hfund : reward * (entries.filter (fun e => e.2 = yw)).length ≤
      getBal bal pallet) :
    getBal (payWinners ed pallet reward yw entries bal) pallet =
      getBal bal pallet - reward * (entries.filter (fun e => e.2 = yw)).length ∧
    (∀ a, a ∉ entries.map Prod.fst → a ≠ pallet →
       getBal (payWinners ed pallet reward yw entries bal) a = getBal bal a) ∧
    (∀ e ∈ entries,
       (e.2 = yw → getBal (payWinners ed pallet reward yw entries bal) e.1 =
          getBal bal e.1 + reward) ∧
       (e.2 ≠ yw → getBal (payWinners ed pallet reward yw entries bal) e.1 =
          getBal bal e.1)) := by
  induction entries generalizing bal with
  | nil => simp [payWinners]
  | cons hd tl ih =>
    obtain ⟨a0, v0⟩ := hd
    rw [List.map_cons, List.nodup_cons] at hnd
    obtain ⟨ha0tl, hndtl⟩ := hnd
    rw [List.map_cons, List.mem_cons] at hp
    push_neg at hp
    obtain ⟨hpa0, hptl⟩ := hp
    by_cases hv0 : v0 = yw
    · have hflen : (((a0, v0) :: tl).filter (fun e => e.2 = yw)).length =
          (tl.filter (fun e => e.2 = yw)).length + 1 := by
        simp [List.filter_cons, hv0]
      rw [hflen] at hfund
      rw [Nat.mul_add, Nat.mul_one] at hfund
      have hstep : payWinners ed pallet reward yw ((a0, v0) :: tl) bal =
          payWinners ed pallet reward yw tl
            (tryTransfer ed bal pallet a0 reward .AllowDeath) := by
        simp [payWinners, hv0]
      have hallowed : transferAllowed ed (getBal bal pallet) reward
          .AllowDeath := by
        show reward ≤ getBal bal pallet
        omega
      obtain ⟨htta0, http, htto⟩ :=
        tryTransfer_getBal_allowed (Ne.symm hpa0) hallowed
      have hfund2 : reward * (tl.filter (fun e => e.2 = yw)).length ≤
          getBal (tryTransfer ed bal pallet a0 reward .AllowDeath) pallet := by
        rw [http]
        omega
      obtain ⟨ihp, iho, ihe⟩ := ih _ hndtl hptl hfund2
      rw [hstep, hflen]
      refine ⟨?_, ?_, ?_⟩
      · rw [ihp, http, Nat.mul_add, Nat.mul_one]
        generalize reward * (tl.filter (fun e => e.2 = yw)).length = x at *
        omega
      · intro a hamem hap
        rw [List.map_cons, List.mem_cons] at hamem
        push_neg at hamem
        rw [iho a hamem.2 hap, htto a hap hamem.1]
      · intro e he
        rcases List.mem_cons.mp he with rfl | hetl
        · refine ⟨?_, ?_⟩
          · intro hv
            show getBal (payWinners ed pallet reward yw tl
              (tryTransfer ed bal pallet a0 reward .AllowDeath)) a0 =
              getBal bal a0 + reward
            rw [iho a0 ha0tl (Ne.symm hpa0), htta0]
          · intro hv
            exact absurd hv0 hv
        · have he1p : e.1 ≠ pallet := by
            intro h
            apply hptl
            rw [← h]
            exact List.mem_map.mpr ⟨e, hetl, rfl⟩
          have he1a0 : e.1 ≠ a0 := by
            intro h
            apply ha0tl
            rw [← h]
            exact List.mem_map.mpr ⟨e, hetl, rfl⟩
          have hbal2e : getBal (tryTransfer ed bal pallet a0 reward
              .AllowDeath) e.1 = getBal bal e.1 := htto e.1 he1p he1a0
          obtain ⟨ihw, ihl⟩ := ihe e hetl
          exact ⟨fun hv => by rw [ihw hv, hbal2e],
            fun hv => by rw [ihl hv, hbal2e]⟩
    · have hflen : (((a0, v0) :: tl).filter (fun e => e.2 = yw)).length =
          (tl.filter (fun e => e.2 = yw)).length := by
        simp [List.filter_cons, hv0]
      rw [hflen] at hfund
      have hstep : payWinners ed pallet reward yw ((a0, v0) :: tl) bal =
          payWinners ed pallet reward yw tl bal := by
        simp [payWinners, hv0]
      obtain ⟨ihp, iho, ihe⟩ := ih _ hndtl hptl hfund
      rw [hstep, hflen]
      refine ⟨ihp, ?_, ?_⟩
      · intro a hamem hap
        rw [List.map_cons, List.mem_cons] at hamem
        push_neg at hamem
        exact iho a hamem.2 hap
      · intro e he
        rcases List.mem_cons.mp he with rfl | hetl
        · exact ⟨fun hv => absurd hv hv0,
            fun _ => iho a0 ha0tl (Ne.symm hpa0)⟩
        · exact ihe e hetl

/-- C2: an eligible settlement computes `creator_reward =
floor(total_staked * creator_reward_percentage / 100)`, `remaining_pool =
total_staked - creator_reward`, declares "yes" the winner exactly when
`yes_votes > no_votes` (a tie resolves to "no"), and with a positive winner
count pays each winning voter `reward_per_winner =
floor(remaining_pool / winner_count)` from escrow and the creator
`creator_reward` (stated for distinct voters, a sufficiently funded escrow
and a creator who is neither a voter nor the escrow account); the spec
scenario — `vote_cost = 10`, percentage 5, 3 yes votes, 1 no vote,
`total_staked = 40` — settles to `creator_reward = 2`, `remaining_pool =
38`, `reward_per_winner = 12`, with 2 units of dust left in escrow. -/
theorem C2_settlement_payouts (cfg : Config) (now market_id : Nat)
    (s : PalletState) (m : Market)
    (hm : alGet s.markets market_id = some m) (hact : m.is_active = true)
    (hdl : m.end_block < now) (hwc : 0 < winnerCount m)
    (hnd : ((votesOf s.votes market_id).map Prod.fst).Nodup)
    (hp : cfg.palletAccount ∉ (votesOf s.votes market_id).map Prod.fst)
    (hc : m.creator ∉ (votesOf s.votes market_id).map Prod.fst)
    (hcp : m.creator ≠ cfg.palletAccount)
    (hfund : ((m.total_staked - creatorRewardOf cfg m.total_staked) /
        winnerCount m) *
        ((votesOf s.votes market_id).filter (fun e => e.2 = yesWins m)).length +
        creatorRewardOf cfg m.total_staked ≤
        getBal s.balances cfg.palletAccount) :
    (∃ s2, release_rewards cfg now market_id s = .ok s2 ∧
      s2.events = s.events ++ [Event.RewardsDistributed market_id m.creator
        (creatorRewardOf cfg m.total_staked)] ∧
      getBal s2.balances m.creator = getBal s.balances m.creator +
        creatorRewardOf cfg m.total_staked ∧
      (∀ e ∈ votesOf s.votes market_id, e.2 = yesWins m →
        getBal s2.balances e.1 = getBal s.balances e.1 +
          (m.total_staked - creatorRewardOf cfg m.total_staked) /
            winnerCount m)) ∧
    (m.yes_votes = m.no_votes → yesWins m = false) ∧
    (stateAfter (release_rewards cfgW 11 0 sW) = some resW ∧
      creatorRewardOf cfgW 40 = 2 ∧ 40 - creatorRewardOf cfgW 40 = 38 ∧
      (38 : Nat) / 3 = 12) := by
  have hok : release_rewards cfg now market_id s =
      .ok (settleState cfg market_id m s) := by
    unfold release_rewards
    rw [hm]
    simp [hact, hdl]
  have hbal : (settleState cfg market_id m s).balances =
      tryTransfer cfg.existentialDeposit
        (payWinners cfg.existentialDeposit cfg.palletAccount
          ((m.total_staked - creatorRewardOf cfg m.total_staked) /
            winnerCount m)
          (yesWins m) (votesOf s.votes market_id) s.balances)
        cfg.palletAccount m.creator (creatorRewardOf cfg m.total_staked)
        .AllowDeath := by
    simp [settleState, hwc]
  have hfund1 : ((m.total_staked - creatorRewardOf cfg m.total_staked) /
      winnerCount m) *
      ((votesOf s.votes market_id).filter (fun e => e.2 = yesWins m)).length ≤
      getBal s.balances cfg.palletAccount := by
    generalize ((m.total_staked - creatorRewardOf cfg m.total_staked) /
      winnerCount m) *
      ((votesOf s.votes market_id).filter (fun e => e.2 = yesWins m)).length
      = x at hfund ⊢
    omega
  obtain ⟨ihp, iho, ihe⟩ := payWinners_getBal cfg.existentialDeposit
    cfg.palletAccount
    ((m.total_staked - creatorRewardOf cfg m.total_staked) / winnerCount m)
    (yesWins m) (votesOf s.votes market_id) s.balances hnd hp hfund1
  have hallowc : transferAllowed cfg.existentialDeposit
      (getBal (payWinners cfg.existentialDeposit cfg.palletAccount
        ((m.total_staked - creatorRewardOf cfg m.total_staked) / winnerCount m)
        (yesWins m) (votesOf s.votes market_id) s.balances) cfg.palletAccount)
      (creatorRewardOf cfg m.total_staked) .AllowDeath := by
    show creatorRewardOf cfg m.total_staked ≤ _
    rw [ihp]
    generalize ((m.total_staked - creatorRewardOf cfg m.total_staked) /
      winnerCount m) *
      ((votesOf s.votes market_id).filter (fun e => e.2 = yesWins m)).length
      = x at hfund ⊢
    omega
  obtain ⟨httc, -, htto⟩ := tryTransfer_getBal_allowed hcp hallowc
  refine ⟨⟨settleState cfg market_id m s, hok, rfl, ?_, ?_⟩,
    ?_, by decide, by decide, by decide, by decide⟩
  · show getBal (settleState cfg market_id m s).balances m.creator = _
    rw [hbal, httc, iho m.creator hc hcp]
  · intro e he hv
    have he1p : e.1 ≠ cfg.palletAccount := by
      intro h
      apply hp
      rw [← h]
      exact List.mem_map.mpr ⟨e, he, rfl⟩
    have he1c : e.1 ≠ m.creator := by
      intro h
      apply hc
      rw [← h]
      exact List.mem_map.mpr ⟨e, he, rfl⟩
    show getBal (settleState cfg market_id m s).balances e.1 = _
    rw [hbal, htto e.1 he1p he1c]
    exact (ihe e he).1 hv
  · intro h
    simp [yesWins, h]

/-- Witness for C2: the spec's worked scenario instantiates the settlement
payout theorem — the state `sW` is eligible, voters are distinct, the escrow
holds the full stake, and the hypotheses all hold concretely. -/
theorem C2_witness :
    alGet sW.markets 0 = some mW ∧ mW.is_active = true ∧ mW.end_block < 11 ∧
    0 < winnerCount mW ∧
    ((votesOf sW.votes 0).map Prod.fst).Nodup ∧
    cfgW.palletAccount ∉ (votesOf sW.votes 0).map Prod.fst ∧
    mW.creator ∉ (votesOf sW.votes 0).map Prod.fst ∧
    mW.creator ≠ cfgW.palletAccount ∧
    (∃ s2, release_rewards cfgW 11 0 sW = .ok s2 ∧
      s2.events = sW.events ++ [Event.RewardsDistributed 0 mW.creator
        (creatorRewardOf cfgW mW.total_staked)] ∧
      getBal s2.balances mW.creator = getBal sW.balances mW.creator +
        creatorRewardOf cfgW mW.total_staked ∧
      (∀ e ∈ votesOf sW.votes 0, e.2 = yesWins mW →
        getBal s2.balances e.1 = getBal sW.balances e.1 +
          (mW.total_staked - creatorRewardOf cfgW mW.total_staked) /
            winnerCount mW)) :=
  ⟨by decide, by decide, by decide, by decide, by decide, by decide, by decide,
   by decide,
   ((C2_settlement_payouts cfgW 11 0 sW mW (by decide) (by decide) (by decide)
     (by decide) (by decide) (by decide) (by decide) (by decide)
     (by decide)).1)⟩

/-- C7: when the winning side has zero votes the settlement makes no
per-voter payout — the resulting ledger is the original one with only the
creator-reward transfer applied — yet still deactivates the market and
succeeds; with no votes cast at all the creator reward is zero and every
balance is left unchanged. -/
theorem C7_no_winner_settlement (cfg : Config) (now market_id : Nat)
    (s : PalletState) (m : Market)
    (hm : alGet s.markets market_id = some m) (hact : m.is_active = true)
    (hdl : m.end_block < now) (hz : winnerCount m = 0) :
    ∃ s2, release_rewards cfg now market_id s = .ok s2 ∧
      s2.balances = tryTransfer cfg.existentialDeposit s.balances
        cfg.palletAccount m.creator (creatorRewardOf cfg m.total_staked)
        .AllowDeath ∧
      alGet s2.markets market_id = some { m with is_active := false } ∧
      (m.total_staked = 0 →
        s2.events = s.events ++ [Event.RewardsDistributed market_id m.creator 0] ∧
        ∀ a, getBal s2.balances a = getBal s.balances a) := by
  have hok : release_rewards cfg now market_id s =
      .ok (settleState cfg market_id m s) := by
    unfold release_rewards
    rw [hm]
    simp [hact, hdl]
  have hbal : (settleState cfg market_id m s).balances =
      tryTransfer cfg.existentialDeposit s.balances cfg.palletAccount
        m.creator (creatorRewardOf cfg m.total_staked) .AllowDeath := by
    unfold settleState
    rw [hz]
    simp
  refine ⟨settleState cfg market_id m s, hok, hbal, alGet_alSet_self _ _ _, ?_⟩
  intro h0
  have hcr : creatorRewardOf cfg m.total_staked = 0 := by
    rw [h0]
    simp [creatorRewardOf]
  constructor
  · show s.events ++ [Event.RewardsDistributed market_id m.creator
      (creatorRewardOf cfg m.total_staked)] = _
    rw [hcr]
  · intro a
    rw [hbal, hcr]
    exact getBal_tryTransfer_zero _ _ _ _ _

/-- Witness for C7: settling the unvoted market of `sZ` after its deadline
succeeds with a zero creator reward and no balance changes. -/
theorem C7_witness :
    alGet sZ.markets 0 = some mZ ∧ mZ.is_active = true ∧ mZ.end_block < 11 ∧
    winnerCount mZ = 0 ∧
    (∃ s2, release_rewards cfgW 11 0 sZ = .ok s2 ∧
      s2.balances = tryTransfer cfgW.existentialDeposit sZ.balances
        cfgW.palletAccount mZ.creator (creatorRewardOf cfgW mZ.total_staked)
        .AllowDeath ∧
      alGet s2.markets 0 = some { mZ with is_active := false } ∧
      (mZ.total_staked = 0 →
        s2.events = sZ.events ++ [Event.RewardsDistributed 0 mZ.creator 0] ∧
        ∀ a, getBal s2.balances a = getBal sZ.balances a)) :=
  ⟨by decide, by decide, by decide, by decide,
   C7_no_winner_settlement cfgW 11 0 sZ mZ (by decide) (by decide) (by decide)
     (by decide)⟩

/-- C8: settlement payouts are best-effort — for every ledger state, an
eligible settlement returns success, deactivates the market and emits
`RewardsDistributed`; concretely, on `sC8` the escrow cannot cover the second
winner, yet the first winner and the creator are still paid and settlement
succeeds. -/
theorem C8_settlement_best_effort (cfg : Config) (now market_id : Nat)
    (s : PalletState) (m : Market)
    (hm : alGet s.markets market_id = some m) (hact : m.is_active = true)
    (hdl : m.end_block < now) :
    (∃ s2, release_rewards cfg now market_id s = .ok s2 ∧
       alGet s2.markets market_id = some { m with is_active := false } ∧
       s2.events = s.events ++ [Event.RewardsDistributed market_id m.creator
         (creatorRewardOf cfg m.total_staked)]) ∧
    stateAfter (release_rewards cfgW 11 0 sC8) = some resC8 := by
  constructor
  · have hok : release_rewards cfg now market_id s =
        .ok (settleState cfg market_id m s) := by
      unfold release_rewards
      rw [hm]
      simp [hact, hdl]
    exact ⟨settleState cfg market_id m s, hok, alGet_alSet_self _ _ _, rfl⟩
  · decide

/-- Witness for C8: the underfunded-escrow scenario state is eligible, and
its settlement succeeds with the partial payouts of `resC8`. -/
theorem C8_witness :
    alGet sC8.markets 0 = some mC8 ∧ mC8.is_active = true ∧ mC8.end_block < 11 ∧
    ((∃ s2, release_rewards cfgW 11 0 sC8 = .ok s2 ∧
       alGet s2.markets 0 = some { mC8 with is_active := false } ∧
       s2.events = sC8.events ++ [Event.RewardsDistributed 0 mC8.creator
         (creatorRewardOf cfgW mC8.total_staked)]) ∧
     stateAfter (release_rewards cfgW 11 0 sC8) = some resC8) :=
  ⟨by decide, by decide, by decide,
   C8_settlement_best_effort cfgW 11 0 sC8 mC8 (by decide) (by decide)
     (by decide)⟩

/-- C10: a successful settlement changes only the `is_active` field of the
settled market's record — creator, deadline, counters, stake and metadata
keep their values — and leaves every other market, the market counter and
the whole vote store unchanged; vote inserts new records without disturbing
existing ones and create_market never touches the vote store. -/
theorem C10_settlement_frame (cfg : Config) (now market_id : Nat)
    (s : PalletState) (m : Market)
    (hm : alGet s.markets market_id = some m) (hact : m.is_active = true)
    (hdl : m.end_block < now) :
    (∃ s2, release_rewards cfg now market_id s = .ok s2 ∧
       alGet s2.markets market_id = some { m with is_active := false } ∧
       (∀ k, k ≠ market_id → alGet s2.markets k = alGet s.markets k) ∧
       s2.marketCount = s.marketCount ∧ s2.votes = s.votes) ∧
    (∀ voter id2 b s2, vote cfg now voter id2 b s = .ok s2 →
       s2.marketCount = s.marketCount ∧ ∀ e ∈ s.votes, e ∈ s2.votes) ∧
    (∀ creator md s2, create_market cfg now creator md s = .ok s2 →
       s2.votes = s.votes) := by
  refine ⟨?_, ?_, ?_⟩
  · have hok : release_rewards cfg now market_id s =
        .ok (settleState cfg market_id m s) := by
      unfold release_rewards
      rw [hm]
      simp [hact, hdl]
    refine ⟨settleState cfg market_id m s, hok, alGet_alSet_self _ _ _, ?_,
      rfl, rfl⟩
    intro k hk
    exact alGet_alSet_ne _ _ _ _ hk
  · intro voter id2 b s2 hok
    obtain ⟨m2, bal2, -, -, -, hv, -, hs2⟩ := vote_ok_elim hok
    subst hs2
    refine ⟨rfl, ?_⟩
    intro e he
    show e ∈ votesSet s.votes id2 voter b
    rw [votesSet_not_contains b hv]
    exact List.mem_append_left _ he
  · intro creator md s2 hok
    obtain ⟨-, hs2⟩ := create_ok_elim hok
    subst hs2
    rfl

/-- Witness for C10: the scenario settlement at block 11 exhibits the frame
property on `sW`. -/
theorem C10_witness :
    alGet sW.markets 0 = some mW ∧ mW.is_active = true ∧ mW.end_block < 11 ∧
    ((∃ s2, release_rewards cfgW 11 0 sW = .ok s2 ∧
       alGet s2.markets 0 = some { mW with is_active := false } ∧
       (∀ k, k ≠ 0 → alGet s2.markets k = alGet sW.markets k) ∧
       s2.marketCount = sW.marketCount ∧ s2.votes = sW.votes) ∧
     (∀ voter id2 b s2, vote cfgW 11 voter id2 b sW = .ok s2 →
       s2.marketCount = sW.marketCount ∧ ∀ e ∈ sW.votes, e ∈ s2.votes) ∧
     (∀ creator md s2, create_market cfgW 11 creator md sW = .ok s2 →
       s2.votes = sW.votes)) :=
  ⟨by decide, by decide, by decide,
   C10_settlement_frame cfgW 11 0 sW mW (by decide) (by decide) (by decide)⟩

/-- Witness for C6: creating the first market on the empty deployment
assigns identifier `0` and advances the counter to `1`. -/
theorem C6_witness :
    sEmpty.marketCount < U32_MAX ∧
    (alGet sFirst.markets sEmpty.marketCount =
       some ⟨1, 0 + cfgW.marketDuration, 0, 0, 0, true, []⟩ ∧
     sFirst.events = sEmpty.events ++
       [Event.MarketCreated sEmpty.marketCount 1 (0 + cfgW.marketDuration) []] ∧
     sFirst.marketCount = sEmpty.marketCount + 1) :=
  ⟨by decide,
   C6_market_id_assignment cfgW 0 1 [] sEmpty (by decide) sFirst
     (stateAfter_some (by decide))⟩

end CustomPallet
